import Mathlib

/-!
# Key-management subsystem of borg: shallow embedding and verification

This file embeds the key-management subsystem (paper-key codec, interactive
paper importer, plain key export/import, envelope passphrase/location changes,
and the legacy attic key-file conversion helpers) and proves the specified
properties about it.

The paper-key checksums are real SHA-256 digests, so the development starts
with an executable SHA-256 over byte lists (natural numbers reduced mod 2^32
at each step, matching 32-bit machine arithmetic).
-/

set_option maxRecDepth 100000

/-- Reduce a natural number to a 32-bit word. -/
def w32 (n : Nat) : Nat := n % 4294967296

/-- Right-rotation of a 32-bit word by `n` positions. -/
def rotr (n x : Nat) : Nat := w32 ((x >>> n) ||| (x <<< (32 - n)))

/-- SHA-256 big sigma-0 word function. -/
def bSig0 (x : Nat) : Nat := rotr 2 x ^^^ rotr 13 x ^^^ rotr 22 x

/-- SHA-256 big sigma-1 word function. -/
def bSig1 (x : Nat) : Nat := rotr 6 x ^^^ rotr 11 x ^^^ rotr 25 x

/-- SHA-256 small sigma-0 word function. -/
def sSig0 (x : Nat) : Nat := rotr 7 x ^^^ rotr 18 x ^^^ (x >>> 3)

/-- SHA-256 small sigma-1 word function. -/
def sSig1 (x : Nat) : Nat := rotr 17 x ^^^ rotr 19 x ^^^ (x >>> 10)

/-- SHA-256 choose word function (the complement is taken mod 2^32). -/
def shaCh (x y z : Nat) : Nat := (x &&& y) ^^^ ((x ^^^ 4294967295) &&& z)

/-- SHA-256 majority word function. -/
def shaMaj (x y z : Nat) : Nat := (x &&& y) ^^^ (x &&& z) ^^^ (y &&& z)

/-- The 64 SHA-256 round constants. -/
def shaK : List Nat :=
  [1116352408, 1899447441, 3049323471, 3921009573, 961987163,
   1508970993, 2453635748, 2870763221, 3624381080, 310598401,
   607225278, 1426881987, 1925078388, 2162078206, 2614888103,
   3248222580, 3835390401, 4022224774, 264347078, 604807628,
   770255983, 1249150122, 1555081692, 1996064986, 2554220882,
   2821834349, 2952996808, 3210313671, 3336571891, 3584528711,
   113926993, 338241895, 666307205, 773529912, 1294757372,
   1396182291, 1695183700, 1986661051, 2177026350, 2456956037,
   2730485921, 2820302411, 3259730800, 3345764771, 3516065817,
   3600352804, 4094571909, 275423344, 430227734, 506948616,
   659060556, 883997877, 958139571, 1322822218, 1537002063,
   1747873779, 1955562222, 2024104815, 2227730452, 2361852424,
   2428436474, 2756734187, 3204031479, 3329325298]

/-- SHA-256 working state: eight 32-bit words. -/
structure Sha8 where
  a : Nat
  b : Nat
  c : Nat
  d : Nat
  e : Nat
  f : Nat
  g : Nat
  h : Nat
deriving DecidableEq

/-- SHA-256 initial hash value. -/
def shaH0 : Sha8 :=
  ⟨1779033703, 3144134277, 1013904242, 2773480762,
   1359893119, 2600822924, 528734635, 1541459225⟩

/-- One SHA-256 compression round, consuming one round constant and one
message-schedule word. -/
def shaRound (st : Sha8) (kw : Nat × Nat) : Sha8 :=
  let t1 := w32 (st.h + bSig1 st.e + shaCh st.e st.f st.g + kw.1 + kw.2)
  let t2 := w32 (bSig0 st.a + shaMaj st.a st.b st.c)
  ⟨w32 (t1 + t2), st.a, st.b, st.c, w32 (st.d + t1), st.e, st.f, st.g⟩

/-- Extend a reversed 16-word block by `n` message-schedule words
(most recent word first, so W[t-2] sits at position 1, W[t-7] at 6,
W[t-15] at 14 and W[t-16] at 15). -/
def shaExtend : Nat → List Nat → List Nat
  | 0, ws => ws
  | n + 1, ws =>
    let nw := w32 (sSig1 (ws.getD 1 0) + ws.getD 6 0 + sSig0 (ws.getD 14 0) + ws.getD 15 0)
    shaExtend n (nw :: ws)

/-- Compress one 16-word block into the running hash value. -/
def shaBlock (hv : Sha8) (block : List Nat) : Sha8 :=
  let ws := (shaExtend 48 block.reverse).reverse
  let st := (shaK.zip ws).foldl shaRound hv
  ⟨w32 (hv.a + st.a), w32 (hv.b + st.b), w32 (hv.c + st.c), w32 (hv.d + st.d),
   w32 (hv.e + st.e), w32 (hv.f + st.f), w32 (hv.g + st.g), w32 (hv.h + st.h)⟩

/-- Pack big-endian bytes into 32-bit words, four at a time. -/
def packWords : List Nat → List Nat
  | a :: b :: c :: d :: rest => (a * 16777216 + b * 65536 + c * 256 + d) :: packWords rest
  | _ => []

/-- Split a word list into 16-word blocks (the padded message always has a
multiple of sixteen words). -/
def blocks16 : List Nat → List (List Nat)
  | w0 :: w1 :: w2 :: w3 :: w4 :: w5 :: w6 :: w7 ::
    w8 :: w9 :: w10 :: w11 :: w12 :: w13 :: w14 :: w15 :: rest =>
      [w0, w1, w2, w3, w4, w5, w6, w7, w8, w9, w10, w11, w12, w13, w14, w15] :: blocks16 rest
  | _ => []

/-- A natural number as eight big-endian bytes. -/
def be64 (n : Nat) : List Nat :=
  [n >>> 56 &&& 255, n >>> 48 &&& 255, n >>> 40 &&& 255, n >>> 32 &&& 255,
   n >>> 24 &&& 255, n >>> 16 &&& 255, n >>> 8 &&& 255, n &&& 255]

/-- SHA-256 message padding: a 0x80 byte, zeros to 56 mod 64, then the
bit length as a 64-bit big-endian integer. -/
def shaPad (msg : List Nat) : List Nat :=
  msg ++ 0x80 :: List.replicate ((120 - (msg.length + 1) % 64) % 64) 0 ++ be64 (msg.length * 8)

/-- The four big-endian bytes of a 32-bit word. -/
def wordBytes (w : Nat) : List Nat :=
  [w >>> 24 &&& 255, w >>> 16 &&& 255, w >>> 8 &&& 255, w &&& 255]

/-- SHA-256 of a byte list, as the 32 digest bytes. -/
def sha256 (msg : List Nat) : List Nat :=
  let hv := ((blocks16 (packWords (shaPad msg)))).foldl shaBlock shaH0
  wordBytes hv.a ++ wordBytes hv.b ++ wordBytes hv.c ++ wordBytes hv.d ++
  wordBytes hv.e ++ wordBytes hv.f ++ wordBytes hv.g ++ wordBytes hv.h

/-- Lowercase hexadecimal digit for a value (taken mod 16). -/
def hexDigit (n : Nat) : Char :=
  let m := n % 16
  if m < 10 then Char.ofNat (48 + m) else Char.ofNat (87 + m)

/-- Lowercase hexadecimal rendering of a byte list, two digits per byte. -/
def binToHex : List Nat → List Char
  | [] => []
  | b :: rest => hexDigit (b / 16) :: hexDigit b :: binToHex rest

/-- `sha256_truncated` of the source: the first `num` characters of the
lowercase hex digest of `data`. -/
def sha256Trunc (num : Nat) (data : List Nat) : String :=
  ⟨(binToHex (sha256 data)).take num⟩

/-! ## Paper-key export -/

/-- The ASCII byte values of a character list (all texts handled by the
codec are ASCII). -/
def asciiBytes (l : List Char) : List Nat := l.map Char.toNat

/-- Group a character list into runs of six separated by single spaces,
as the exporter's `grouped` helper does for hex strings. -/
def grouped : List Char → List Char
  | c0 :: c1 :: c2 :: c3 :: c4 :: c5 :: c6 :: rest =>
      c0 :: c1 :: c2 :: c3 :: c4 :: c5 :: ' ' :: grouped (c6 :: rest)
  | l => l

/-- Decimal digits of a natural number (fuel-driven; call with fuel > n). -/
def natDigitsAux : Nat → Nat → List Char
  | 0, _ => []
  | fuel + 1, n => if n < 10 then [hexDigit n] else natDigitsAux fuel (n / 10) ++ [hexDigit (n % 10)]

/-- Decimal rendering of a natural number. -/
def natDigits (n : Nat) : List Char := natDigitsAux (n + 1) n

/-- Line label of a numbered data line: the index right-aligned to width two,
then a colon and a space (Python `"{0:2d}: "`). -/
def lineLabel (idx : Nat) : List Char :=
  (if idx < 10 then [' '] else []) ++ natDigits idx ++ [':', ' ']

/-- Checksum of data line `idx` carrying raw bytes `chunk`: the first byte of
the SHA-256 of the two-byte big-endian index followed by the chunk, as two
lowercase hex characters.  This is the layout the source test pins down in
its collision-search comment (`sha256(b'\x00\x02' + x).hexdigest()[:2]`). -/
def lineChecksum (idx : Nat) (chunk : List Nat) : String :=
  sha256Trunc 2 (idx / 256 % 256 :: idx % 256 :: chunk)

/-- One numbered data line of the paper key, without the trailing newline. -/
def dataLine (idx : Nat) (chunk : List Nat) : List Char :=
  lineLabel idx ++ grouped (binToHex chunk) ++ ' ' :: '-' :: ' ' :: (lineChecksum idx chunk).data

/-- The numbered data lines for a byte string, eighteen bytes per line
(fuel-driven on the line count). -/
def dataLines : Nat → Nat → List Nat → List (List Char)
  | 0, _, _ => []
  | _ + 1, _, [] => []
  | fuel + 1, idx, b :: rest =>
      dataLine idx ((b :: rest).take 18) :: dataLines fuel (idx + 1) ((b :: rest).drop 18)

/-- The text of the header line after `id: ` — line count, repository-id
prefix and overall checksum, separated by `/` — with spaces removed; the
header checksum is the truncated digest of this ASCII text. -/
def headerText (nlines : Nat) (repoPrefix : List Char) (overall : String) : List Char :=
  natDigits nlines ++ '/' :: repoPrefix ++ '/' :: overall.data

/-- The `id:` header line of the paper key, without the trailing newline.

Modelled from the spec: the exporter (`KeyManager.export_paperkey`) is not in
the source tree; §4.5/§6 of the spec fix this layout, and the header-line
checksum is the one reproducing the spec's literal example (§6) and the
output pinned by `test_key_export_paperkey` — the truncated digest of the
header's own ASCII text. -/
def headerLine (nlines : Nat) (repoPrefix : List Char) (overall : String) : List Char :=
  "id: ".data ++ natDigits nlines ++ ' ' :: '/' :: ' ' :: grouped repoPrefix ++
  ' ' :: '/' :: ' ' :: grouped overall.data ++
  ' ' :: '-' :: ' ' :: (sha256Trunc 2 (asciiBytes (headerText nlines repoPrefix overall))).data

/-- Join lines with terminating newlines. -/
def joinLines : List (List Char) → List Char
  | [] => []
  | l :: rest => l ++ '\n' :: joinLines rest

/-- Paper export of a binary key payload for a repository whose id has the
given lowercase hex rendering.

Modelled from the spec: `KeyManager.export_paperkey` is not in the source
tree.  Per §4.5/§6: a fixed usage banner, the `BORG PAPER KEY v1` signature,
an `id:` line carrying the line count, the first eighteen hex characters of
the repository id, the overall checksum (first twelve hex characters of the
SHA-256 of the full payload) and a header checksum, then one numbered line
per eighteen-byte chunk, each with its position-bound line checksum. -/
def exportPaperkey (binary : List Nat) (repoidHex : List Char) : String :=
  let nlines := (binary.length + 17) / 18
  let repoPrefix := repoidHex.take 18
  let overall := sha256Trunc 12 binary
  ⟨"To restore key use borg key import --paper /path/to/repo\n\nBORG PAPER KEY v1\n".data ++
   joinLines (headerLine nlines repoPrefix overall :: dataLines nlines 1 binary)⟩

/-- The 21-byte key payload of the source's paper-key test. -/
def payload21 : List Nat := asciiBytes "abcdefghijklmnopqrstu".data

/-- The repository id of the source's paper-key test, as hex text. -/
def testRepoIdHex : List Char :=
  "e294423506da4e1ea76e8dcdf1a3919624ae3ae496fddf905610c351d3f09239".data

/-! ## Paper-key interactive import -/

/-- Split a character list at every occurrence of a separator character. -/
def splitOnChar (c : Char) : List Char → List (List Char)
  | [] => [[]]
  | x :: rest =>
    match splitOnChar c rest with
    | [] => [[x]]
    | h :: t => if x = c then [] :: h :: t else (x :: h) :: t

/-- Remove every space, as the importer does on each typed line before
parsing. -/
def stripSpaces (l : List Char) : List Char := l.filter (· ≠ ' ')

/-- Value of a hexadecimal digit character, either case. -/
def hexVal (c : Char) : Option Nat :=
  if '0' ≤ c ∧ c ≤ '9' then some (c.toNat - 48)
  else if 'a' ≤ c ∧ c ≤ 'f' then some (c.toNat - 87)
  else if 'A' ≤ c ∧ c ≤ 'F' then some (c.toNat - 55)
  else none

/-- Decode an even-length run of hexadecimal characters to bytes; odd
length or a non-hex character fails. -/
def unhex : List Char → Option (List Nat)
  | [] => some []
  | [_] => none
  | c1 :: c2 :: rest =>
    match hexVal c1, hexVal c2, unhex rest with
    | some h, some l, some bs => some ((h * 16 + l) :: bs)
    | _, _, _ => none

/-- Accumulate the decimal digits of a numeral. -/
def parseDecAux : Nat → List Char → Option Nat
  | acc, [] => some acc
  | acc, c :: rest =>
    if '0' ≤ c ∧ c ≤ '9' then parseDecAux (acc * 10 + (c.toNat - 48)) rest else none

/-- Parse a non-empty decimal numeral. -/
def parseDec : List Char → Option Nat
  | [] => none
  | c :: rest => parseDecAux 0 (c :: rest)

/-- The accepted content of a typed `id:` header line. -/
structure PaperHeader where
  nlines : Nat
  repoid : List Char
  overall : List Char
deriving DecidableEq

/-- Parse a typed `id:` header line.

Modelled from the spec: the interactive importer is not in the source tree.
Per §4.5 `AwaitHeader`: spaces are removed; the line must contain exactly one
`-` separating content from checksum and exactly three `/`-separated fields
(line count, repository-id prefix, overall checksum); the header checksum is
validated as the truncated digest of the lowercased content text (the layout
fixed by the spec's literal example and the source test); the line count must
be numeric.  Any failure yields `none` and re-prompts the same state. -/
def parseHeaderLine (line : List Char) : Option PaperHeader :=
  match splitOnChar '-' (stripSpaces line) with
  | [data, ck] =>
    if (sha256Trunc 2 (asciiBytes (data.map Char.toLower))).data = ck then
      match splitOnChar '/' data with
      | [nstr, repoid, overall] =>
        match parseDec nstr with
        | some n => some ⟨n, repoid, overall⟩
        | none => none
      | _ => none
    else none
  | _ => none

/-- Parse a typed data line for index `idx`.

Modelled from the spec: per §4.5 `AwaitLine(i)`, spaces are removed, the line
must contain exactly one `-` separating hex content from the line checksum,
the content must be an even-length hex string, and the checksum must equal
the position-bound truncated digest for index `idx`.  Any failure yields
`none` and re-prompts the same line index. -/
def parseDataLine (idx : Nat) (line : List Char) : Option (List Nat) :=
  match splitOnChar '-' (stripSpaces line) with
  | [data, ck] =>
    match unhex data with
    | some bytes => if (lineChecksum idx bytes).data = ck then some bytes else none
    | none => none
  | _ => none

/-- States of the interactive paper importer (§4.5): awaiting the header,
awaiting data line `i` with the accepted header and the bytes accepted so
far, awaiting an abort confirmation, or terminal. -/
inductive PaperState where
  | awaitHeader : PaperState
  | awaitLine (i : Nat) (hdr : PaperHeader) (acc : List Nat) : PaperState
  | confirmAbort (resume : PaperState) : PaperState
  | done (payload : List Nat) : PaperState
  | repoMismatch : PaperState
  | aborted : PaperState
deriving DecidableEq

/-- Importer configuration: current state plus the count of consecutive
blank submissions seen in the current prompt. -/
structure PaperConfig where
  st : PaperState
  blanks : Nat
deriving DecidableEq

/-- The `Validating` transition taken once all `N` data lines are accepted:
recompute the overall checksum of the accepted payload and compare with the
header's embedded one; on mismatch return to `AwaitLine(1)` keeping the
accepted header but dropping all accepted data bytes; on success finish
(`RepoIdMismatch` if the header's repository-id prefix disagrees with the
target repository). -/
def finishLines (target : List Char) (hdr : PaperHeader) (acc : List Nat) : PaperState :=
  if (sha256Trunc 12 acc).data = hdr.overall then
    if hdr.repoid = target then .done acc else .repoMismatch
  else .awaitLine 1 hdr []

/-- One step of the interactive paper importer on a submitted line.

Modelled from the spec (§4.5): a structurally invalid or checksum-failing
submission re-prompts the same state; two consecutive blank submissions move
to the abort confirmation, where `y` aborts and anything else resumes the
interrupted state; accepting the final data line triggers validation. -/
def paperStep (target : List Char) (cfg : PaperConfig) (line : String) : PaperConfig :=
  match cfg.st with
  | .done p => ⟨.done p, cfg.blanks⟩
  | .aborted => ⟨.aborted, cfg.blanks⟩
  | .repoMismatch => ⟨.repoMismatch, cfg.blanks⟩
  | .confirmAbort resume =>
    if stripSpaces line.data = ['y'] then ⟨.aborted, 0⟩ else ⟨resume, 0⟩
  | .awaitHeader =>
    if stripSpaces line.data = [] then
      if cfg.blanks = 0 then ⟨.awaitHeader, 1⟩ else ⟨.confirmAbort .awaitHeader, 0⟩
    else
      match parseHeaderLine line.data with
      | some hdr => ⟨.awaitLine 1 hdr [], 0⟩
      | none => ⟨.awaitHeader, 0⟩
  | .awaitLine i hdr acc =>
    if stripSpaces line.data = [] then
      if cfg.blanks = 0 then ⟨.awaitLine i hdr acc, 1⟩
      else ⟨.confirmAbort (.awaitLine i hdr acc), 0⟩
    else
      match parseDataLine i line.data with
      | some bytes =>
        if i = hdr.nlines then ⟨finishLines target hdr (acc ++ bytes), 0⟩
        else ⟨.awaitLine (i + 1) hdr (acc ++ bytes), 0⟩
      | none => ⟨.awaitLine i hdr acc, 0⟩

/-- Run the importer over a scripted list of typed lines. -/
def paperRun (target : List Char) (cfg : PaperConfig) : List String → PaperConfig
  | [] => cfg
  | l :: rest => paperRun target (paperStep target cfg l) rest

/-- Key material yielded by a finished import: only the `Done` state yields
reconstructed bytes; an aborted or unfinished import writes nothing. -/
def paperResult (cfg : PaperConfig) : Option (List Nat) :=
  match cfg.st with
  | .done p => some p
  | _ => none

/-- The header accepted in the source's paper-key import test. -/
def testHeader : PaperHeader :=
  ⟨2, "e294423506da4e1ea7".data, "25f62a5a3d41".data⟩

/-- The exact line sequence typed in `test_key_import_paperkey`. -/
def testTypedInput : List String :=
  ["2 / e29442 3506da 4e1ea7 / 25f62a 5a3d41  02",
   "2 / e29442 3506da 4e1ea7  25f62a 5a3d41 - 02",
   "2 / e29442 3506da 4e1ea7 / 25f62a 5a3d42 - 02",
   "2 / e29442 3506da 4e1ea7 / 25f62a 5a3d41 - 02",
   "616263 646566 676869 6a6b6c 6d6e6f 707172 - 6d",
   "", "",
   "737475 88",
   "73747i - 88",
   "73747 - 88",
   "73 74 75  -  89",
   "00a1 - 88",
   "2 / e29442 3506da 4e1ea7 / 25f62a 5a3d41 - 02",
   "616263 646566 676869 6a6b6c 6d6e6f 707172 - 6d",
   "73 74 75  -  88"]

/-- The data-line content a human retypes for chunk printed at index `i`:
the grouped hex of the chunk, then ` - `, then the line checksum that was
printed for index `i` (the numbered label is a prompt, not typed). -/
def printedData (i : Nat) (chunk : List Nat) : List Char :=
  grouped (binToHex chunk) ++ ' ' :: '-' :: ' ' :: (lineChecksum i chunk).data

/-- The fifteen raw bytes the `id:` header line of the test vector encodes:
the nine-byte repository-id prefix followed by the six-byte overall
checksum. -/
def testHeaderRawBytes : List Nat :=
  [0xe2, 0x94, 0x42, 0x35, 0x06, 0xda, 0x4e, 0x1e, 0xa7,
   0x25, 0xf6, 0x2a, 0x5a, 0x3d, 0x41]

/-! ## Plain key export / import -/

/-- Outcome of a plain key import (§4.4's error taxonomy): success carries
the restored key-file contents. -/
inductive PlainImport where
  | ok (restored : List Char) : PlainImport
  | fileNotFound : PlainImport
  | notABorgKeyFile : PlainImport
  | repoIdMismatch : PlainImport
deriving DecidableEq

/-- The current key-file signature, pinned by the source tests
(`BORG_KEY ` followed by the hex repository id on the first line). -/
def borgKeySig : List Char := "BORG_KEY ".data

/-- Contents of a stored key file for a repository id and encoded key blob:
the signature line binding the id, then the blob (§4.4/§6).

Modelled from the spec: the key-file codec itself is not in the source tree;
`test_key_export_keyfile` pins the first line and that export and stored
file are byte-identical. -/
def keyfileContents (rid : List Nat) (blob : List Char) : List Char :=
  borgKeySig ++ binToHex rid ++ '\n' :: blob

/-- The first line of a text file (up to the first newline, exclusive). -/
def firstLineOf (s : List Char) : List Char := s.takeWhile (· ≠ '\n')

/-- Everything after the first line of a text file. -/
def restAfterFirstLine (s : List Char) : List Char :=
  (s.dropWhile (· ≠ '\n')).drop 1

/-- Plain key export for a repository: rebuild the id-binding signature line
and append the key blob loaded from the stored key file.

Modelled from the spec: `KeyManager.export` is not in the source tree; §4.4
specifies export as "write envelope to an arbitrary path with an id-binding
header line". -/
def exportPlain (rid : List Nat) (storedFile : List Char) : List Char :=
  borgKeySig ++ binToHex rid ++ '\n' :: restAfterFirstLine storedFile

/-- Plain key import against a target repository id.

Modelled from the spec: `KeyManager.import_keyfile` is not in the source
tree.  Per §4.4's taxonomy: an empty or missing source file fails with
`FileNotFound`; content whose first line does not carry the key-file
signature fails with `NotABorgKeyFile`; a recognized envelope whose embedded
repository id differs from the target's fails with `RepoIdMismatch`; on
success the key blob is stored for the target repository. -/
def importPlain (targetRid : List Nat) (file : Option (List Char)) : PlainImport :=
  match file with
  | none => .fileNotFound
  | some s =>
    if s = [] then .fileNotFound
    else if borgKeySig.isPrefixOf (firstLineOf s) then
      if (firstLineOf s).drop 9 = binToHex targetRid then
        .ok (keyfileContents targetRid (restAfterFirstLine s))
      else .repoIdMismatch
    else .notABorgKeyFile

/-! ## Envelope, passphrase change and location change -/

/-- Decrypted key material: the algorithm identifier fixed at key-creation
time and the symmetric key bytes (§3). -/
structure KeyMaterial where
  algorithm : String
  key : List Nat
deriving DecidableEq

/-- The portable envelope (§3): algorithm identifier, KDF salt, and `data` =
encrypted and authenticated key material. -/
structure Envelope where
  algorithm : String
  salt : List Nat
  data : List Nat
deriving DecidableEq

/-- Passphrase-to-wrapping-key derivation.

Modelled from the spec: the KDF (argon2 / legacy pbkdf2 families) is not in
the source tree; what the claims need is that it is deterministic in
passphrase and salt, which this SHA-256-based stand-in is (§4.1). -/
def kdf (pass : String) (salt : List Nat) : List Nat :=
  sha256 (asciiBytes pass.data ++ salt)

/-- Counter-mode keystream blocks derived from the wrapping key. -/
def ksBlocks : Nat → List Nat → Nat → List Nat
  | 0, _, _ => []
  | b + 1, k, ctr => sha256 (k ++ [ctr % 256]) ++ ksBlocks b k (ctr + 1)

/-- A keystream of exactly `n` bytes derived from the wrapping key. -/
def keystream (k : List Nat) (n : Nat) : List Nat :=
  (ksBlocks ((n + 31) / 32) k 0).take n

/-- Byte-wise XOR of two equal-length byte lists. -/
def zipXor (a b : List Nat) : List Nat := List.zipWith (fun x y => x ^^^ y) a b

/-- Encode key material into an envelope under a passphrase and fresh salt:
the algorithm identifier is carried in the clear, `data` is the key bytes
encrypted under the derived wrapping key followed by an authentication tag.

Modelled from the spec: the envelope codec is not in the source tree; §4.2
fixes encode/decode/rewrap, and the source tests pin that the decoded
envelope structure carries the `algorithm` field. -/
def encodeEnv (km : KeyMaterial) (pass : String) (salt : List Nat) : Envelope :=
  let k := kdf pass salt
  ⟨km.algorithm, salt, zipXor km.key (keystream k km.key.length) ++ sha256 (k ++ km.key)⟩

/-- Decode an envelope under a passphrase: derive the wrapping key from the
embedded salt, decrypt, and check the authentication tag; a failed tag check
is an authentication failure (`none`). -/
def decodeEnv (env : Envelope) (pass : String) : Option KeyMaterial :=
  let k := kdf pass env.salt
  let ct := env.data.take (env.data.length - 32)
  let tag := env.data.drop (env.data.length - 32)
  let pt := zipXor ct (keystream k ct.length)
  if sha256 (k ++ pt) = tag then some ⟨env.algorithm, pt⟩ else none

/-- Change-passphrase: decode under the old passphrase and re-encode the
same key material under the new passphrase with a fresh salt (§4.2 rewrap). -/
def changePassphrase (env : Envelope) (oldPass newPass : String) (newSalt : List Nat) :
    Option Envelope :=
  (decodeEnv env oldPass).map fun km => encodeEnv km newPass newSalt

/-- The two key-storage locations (§3). -/
inductive KeyLocation where
  | external : KeyLocation
  | embedded : KeyLocation
deriving DecidableEq

/-- The pair of key stores of one repository: the external key-file slot and
the repository-embedded slot. -/
structure KeyStores where
  external : Option Envelope
  embedded : Option Envelope
deriving DecidableEq

/-- Load the envelope from one location. -/
def loadFrom (s : KeyStores) : KeyLocation → Option Envelope
  | .external => s.external
  | .embedded => s.embedded

/-- Save an envelope to one location. -/
def saveTo (s : KeyStores) (loc : KeyLocation) (env : Envelope) : KeyStores :=
  match loc with
  | .external => ⟨some env, s.embedded⟩
  | .embedded => ⟨s.external, some env⟩

/-- Remove the envelope from one location. -/
def removeFrom (s : KeyStores) : KeyLocation → KeyStores
  | .external => ⟨none, s.embedded⟩
  | .embedded => ⟨s.external, none⟩

/-- Change-location: load the envelope blob from the source store, save it
unchanged to the target store, verify the target is readable, and only then
remove the source copy; verification failure leaves the source untouched.

Modelled from the spec: the key-location change is not in the source tree;
§3/§4.3 specify it moves the envelope blob between stores without altering
it. -/
def changeLocation (s : KeyStores) (src dst : KeyLocation) : Option KeyStores :=
  match loadFrom s src with
  | none => none
  | some env =>
    let s1 := saveTo s dst env
    if loadFrom s1 dst = some env then some (removeFrom s1 src) else none

/-! ## Legacy attic key files (source: borg/testsuite/convert.py) -/

/-- The legacy attic key-file signature (`AtticKeyfileKey.FILE_ID`). -/
def atticFileId : List Char := "ATTIC KEY".data

/-- The current borg key-file signature (`KeyfileKey.FILE_ID`, pinned as
`BORG_KEY` by the spec and the source tests). -/
def borgFileId : List Char := "BORG_KEY".data

/-- Python's `str.replace(old, new, 1)`: replace the leftmost occurrence of
`pat` (if any) by `rep`, leaving everything else unchanged. -/
def replaceFirst (pat rep : List Char) : List Char → List Char
  | [] => []
  | x :: rest =>
    if pat.isPrefixOf (x :: rest) then rep ++ (x :: rest).drop pat.length
    else x :: replaceFirst pat rep rest

/-- The data rewrite of `AtticRepositoryConverter.convert_keyfiles`:
`data.replace(AtticKeyfileKey.FILE_ID, KeyfileKey.FILE_ID, 1)` — the first
occurrence of the legacy signature becomes the borg signature and no other
byte changes; the key material is never decrypted. -/
def convertKeyfileData (data : List Char) : List Char :=
  replaceFirst atticFileId borgFileId data

/-- First line of a key file as `AtticKeyfileKey.find_key_file` reads it:
`fd.readline().strip()` — up to the newline, whitespace-trimmed. -/
def firstLineTrimmed (content : List Char) : List Char :=
  ((content.takeWhile (· ≠ '\n')).dropWhile Char.isWhitespace).reverse.dropWhile
    Char.isWhitespace |>.reverse

/-- The match test of `AtticKeyfileKey.find_key_file` on one candidate file:
the first line is non-empty, starts with the legacy signature, and the text
from position 10 on equals the target hex repository id
(`line and line.startswith(cls.FILE_ID) and line[10:] == id`). -/
def keyfileMatches (id : List Char) (content : List Char) : Bool :=
  let line := firstLineTrimmed content
  !line.isEmpty && atticFileId.isPrefixOf line && line.drop 10 == id

/-- Result of looking up a repository's key file in the key directory. -/
inductive KeyLookup where
  | found (name : String) : KeyLookup
  | keyfileNotFound : KeyLookup
deriving DecidableEq

/-- `AtticKeyfileKey.find_key_file`: enumerate the key directory's files in
order, return the first whose embedded repository id matches the target, and
raise `KeyfileNotFoundError` when none matches. -/
def findKeyFile (id : List Char) : List (String × List Char) → KeyLookup
  | [] => .keyfileNotFound
  | (name, content) :: rest =>
    if keyfileMatches id content then .found name else findKeyFile id rest


/-- The repository id of the source's key tests, as its 32 raw bytes. -/
def testRepoIdBytes : List Nat :=
  [0xe2, 0x94, 0x42, 0x35, 0x06, 0xda, 0x4e, 0x1e, 0xa7, 0x6e, 0x8d, 0xcd, 0xf1, 0xa3, 0x91, 0x96,
   0x24, 0xae, 0x3a, 0xe4, 0x96, 0xfd, 0xdf, 0x90, 0x56, 0x10, 0xc3, 0x51, 0xd3, 0xf0, 0x92, 0x39]

/-! ## Supporting lemmas -/

theorem hexVal_hexDigit (n : Nat) : hexVal (hexDigit n) = some (n % 16) := by
  have h : n % 16 < 16 := Nat.mod_lt _ (by norm_num)
  simp only [hexDigit]
  set m := n % 16 with hm
  interval_cases m <;> decide

theorem hexDigit_ne_space (n : Nat) : hexDigit n ≠ ' ' := by
  have h : n % 16 < 16 := Nat.mod_lt _ (by norm_num)
  simp only [hexDigit]
  set m := n % 16 with hm
  interval_cases m <;> decide

theorem hexDigit_ne_dash (n : Nat) : hexDigit n ≠ '-' := by
  have h : n % 16 < 16 := Nat.mod_lt _ (by norm_num)
  simp only [hexDigit]
  set m := n % 16 with hm
  interval_cases m <;> decide

theorem hexDigit_ne_newline (n : Nat) : hexDigit n ≠ '\n' := by
  have h : n % 16 < 16 := Nat.mod_lt _ (by norm_num)
  simp only [hexDigit]
  set m := n % 16 with hm
  interval_cases m <;> decide

theorem mem_binToHex (l : List Nat) (c : Char) (hc : c ∈ binToHex l) :
    ∃ n, c = hexDigit n := by
  induction l with
  | nil => simp [binToHex] at hc
  | cons b rest ih =>
    simp only [binToHex, List.mem_cons] at hc
    rcases hc with h | h | h
    · exact ⟨b / 16, h⟩
    · exact ⟨b, h⟩
    · exact ih h

theorem unhex_binToHex (l : List Nat) (h : ∀ b ∈ l, b < 256) :
    unhex (binToHex l) = some l := by
  induction l with
  | nil => rfl
  | cons b rest ih =>
    have hb : b < 256 := h b (by simp)
    have hrest : ∀ x ∈ rest, x < 256 := fun x hx => h x (by simp [hx])
    have h1 : hexVal (hexDigit (b / 16)) = some (b / 16) := by
      rw [hexVal_hexDigit, Nat.mod_eq_of_lt (by omega)]
    have h2 : hexVal (hexDigit b) = some (b % 16) := hexVal_hexDigit b
    have hb2 : b / 16 * 16 + b % 16 = b := by omega
    simp only [binToHex, unhex, h1, h2, ih hrest, hb2]

theorem stripSpaces_append (a b : List Char) :
    stripSpaces (a ++ b) = stripSpaces a ++ stripSpaces b := by
  simp [stripSpaces]

theorem stripSpaces_space_cons (b : List Char) : stripSpaces (' ' :: b) = stripSpaces b := by
  simp [stripSpaces]

theorem stripSpaces_grouped (l : List Char) : stripSpaces (grouped l) = stripSpaces l := by
  induction l using grouped.induct with
  | case1 c0 c1 c2 c3 c4 c5 c6 rest ih =>
    have e1 : grouped (c0 :: c1 :: c2 :: c3 :: c4 :: c5 :: c6 :: rest) =
        [c0, c1, c2, c3, c4, c5] ++ ' ' :: grouped (c6 :: rest) := rfl
    have e2 : (c0 :: c1 :: c2 :: c3 :: c4 :: c5 :: c6 :: rest : List Char) =
        [c0, c1, c2, c3, c4, c5] ++ (c6 :: rest) := rfl
    rw [e1, e2, stripSpaces_append, stripSpaces_append]
    rw [stripSpaces_space_cons, ih]
  | case2 l h =>
    rcases l with _ | ⟨a, _ | ⟨b, _ | ⟨c, _ | ⟨d, _ | ⟨e, _ | ⟨f, _ | ⟨g, rest⟩⟩⟩⟩⟩⟩⟩
    all_goals try rfl
    exact (h a b c d e f g rest rfl).elim

theorem splitOnChar_ne_nil (c : Char) (l : List Char) : splitOnChar c l ≠ [] := by
  induction l with
  | nil => simp [splitOnChar]
  | cons x rest ih =>
    simp only [splitOnChar]
    cases h : splitOnChar c rest with
    | nil => exact absurd h ih
    | cons hd tl =>
      dsimp only
      split <;> simp

theorem stripSpaces_eq_self (l : List Char) (h : ' ' ∉ l) : stripSpaces l = l := by
  simp only [stripSpaces]
  rw [List.filter_eq_self]
  intro c hc
  simp only [decide_eq_true_eq]
  intro he
  exact h (he ▸ hc)

theorem splitOnChar_not_mem (c : Char) (l : List Char) (h : c ∉ l) :
    splitOnChar c l = [l] := by
  induction l with
  | nil => rfl
  | cons x rest ih =>
    have hx : x ≠ c := fun he => h (by simp [he])
    have hr : c ∉ rest := fun hm => h (by simp [hm])
    simp only [splitOnChar, ih hr, if_neg hx]

theorem splitOnChar_append (c : Char) (a b : List Char) (ha : c ∉ a) :
    splitOnChar c (a ++ c :: b) = a :: splitOnChar c b := by
  induction a with
  | nil =>
    simp only [List.nil_append, splitOnChar]
    cases hsb : splitOnChar c b with
    | nil => exact absurd hsb (splitOnChar_ne_nil c b)
    | cons h t => simp
  | cons x rest ih =>
    have hx : x ≠ c := fun he => ha (by simp [he])
    have hr : c ∉ rest := fun hm => ha (by simp [hm])
    simp only [List.cons_append, splitOnChar]
    rw [show rest ++ c :: b = rest.append (c :: b) from rfl] at ih
    rw [ih hr]
    dsimp only
    rw [if_neg hx]

theorem stripSpaces_cons_of_ne (c : Char) (h : c ≠ ' ') (b : List Char) :
    stripSpaces (c :: b) = c :: stripSpaces b := by
  simp [stripSpaces, h]

theorem space_not_mem_binToHex (l : List Nat) : ' ' ∉ binToHex l := by
  intro h
  obtain ⟨n, e⟩ := mem_binToHex l ' ' h
  exact hexDigit_ne_space n e.symm

theorem dash_not_mem_binToHex (l : List Nat) : '-' ∉ binToHex l := by
  intro h
  obtain ⟨n, e⟩ := mem_binToHex l '-' h
  exact hexDigit_ne_dash n e.symm

theorem newline_not_mem_binToHex (l : List Nat) : '\n' ∉ binToHex l := by
  intro h
  obtain ⟨n, e⟩ := mem_binToHex l '\n' h
  exact hexDigit_ne_newline n e.symm

theorem mem_lineChecksum (i : Nat) (chunk : List Nat) (c : Char)
    (hc : c ∈ (lineChecksum i chunk).data) : ∃ n, c = hexDigit n := by
  have : c ∈ binToHex (sha256 (i / 256 % 256 :: i % 256 :: chunk)) := by
    simpa [lineChecksum, sha256Trunc] using List.take_subset 2 _ hc
  exact mem_binToHex _ c this

theorem parseDataLine_printedData (i j : Nat) (chunk : List Nat)
    (h256 : ∀ b ∈ chunk, b < 256) :
    parseDataLine j (printedData i chunk) =
      if (lineChecksum j chunk).data = (lineChecksum i chunk).data then some chunk
      else none := by
  have hxs : ' ' ∉ binToHex chunk := space_not_mem_binToHex chunk
  have hxd : '-' ∉ binToHex chunk := dash_not_mem_binToHex chunk
  have hcs : ' ' ∉ (lineChecksum i chunk).data := by
    intro h
    obtain ⟨n, e⟩ := mem_lineChecksum i chunk ' ' h
    exact hexDigit_ne_space n e.symm
  have hcd : '-' ∉ (lineChecksum i chunk).data := by
    intro h
    obtain ⟨n, e⟩ := mem_lineChecksum i chunk '-' h
    exact hexDigit_ne_dash n e.symm
  have estrip : stripSpaces (printedData i chunk) =
      binToHex chunk ++ '-' :: (lineChecksum i chunk).data := by
    show stripSpaces (grouped (binToHex chunk) ++
      ' ' :: '-' :: ' ' :: (lineChecksum i chunk).data) = _
    rw [stripSpaces_append, stripSpaces_grouped, stripSpaces_eq_self _ hxs,
      stripSpaces_space_cons, stripSpaces_cons_of_ne '-' (by decide),
      stripSpaces_space_cons, stripSpaces_eq_self _ hcs]
  have esplit : splitOnChar '-' (stripSpaces (printedData i chunk)) =
      [binToHex chunk, (lineChecksum i chunk).data] := by
    rw [estrip, splitOnChar_append '-' _ _ hxd, splitOnChar_not_mem '-' _ hcd]
  show (match splitOnChar '-' (stripSpaces (printedData i chunk)) with
    | [data, ck] =>
      match unhex data with
      | some bytes => if (lineChecksum j bytes).data = ck then some bytes else none
      | none => none
    | _ => none) = _
  rw [esplit]
  dsimp only
  rw [unhex_binToHex chunk h256]

theorem firstLineOf_append (a b : List Char) (h : '\n' ∉ a) :
    firstLineOf (a ++ '\n' :: b) = a := by
  induction a with
  | nil => simp [firstLineOf]
  | cons x rest ih =>
    have hx : x ≠ '\n' := fun e => h (by simp [e])
    have hr : '\n' ∉ rest := fun m => h (by simp [m])
    simp [firstLineOf, List.takeWhile_cons, hx] at *
    exact ih hr

theorem restAfterFirstLine_append (a b : List Char) (h : '\n' ∉ a) :
    restAfterFirstLine (a ++ '\n' :: b) = b := by
  induction a with
  | nil => simp [restAfterFirstLine]
  | cons x rest ih =>
    have hx : x ≠ '\n' := fun e => h (by simp [e])
    have hr : '\n' ∉ rest := fun m => h (by simp [m])
    simp [restAfterFirstLine, List.dropWhile_cons, hx] at *
    exact ih hr

theorem newline_not_mem_keyline (rid : List Nat) :
    '\n' ∉ borgKeySig ++ binToHex rid := by
  intro h
  rcases List.mem_append.mp h with h | h
  · revert h
    decide
  · exact newline_not_mem_binToHex rid h

theorem keyfileContents_assoc (rid : List Nat) (blob : List Char) :
    keyfileContents rid blob = (borgKeySig ++ binToHex rid) ++ '\n' :: blob := by
  simp [keyfileContents]

theorem firstLineOf_keyfile (rid : List Nat) (blob : List Char) :
    firstLineOf (keyfileContents rid blob) = borgKeySig ++ binToHex rid := by
  rw [keyfileContents_assoc]
  exact firstLineOf_append _ _ (newline_not_mem_keyline rid)

theorem restAfterFirstLine_keyfile (rid : List Nat) (blob : List Char) :
    restAfterFirstLine (keyfileContents rid blob) = blob := by
  rw [keyfileContents_assoc]
  exact restAfterFirstLine_append _ _ (newline_not_mem_keyline rid)

theorem exportPlain_keyfile (rid : List Nat) (blob : List Char) :
    exportPlain rid (keyfileContents rid blob) = keyfileContents rid blob := by
  show borgKeySig ++ binToHex rid ++ '\n' :: restAfterFirstLine (keyfileContents rid blob) =
    keyfileContents rid blob
  rw [restAfterFirstLine_keyfile]
  rfl

theorem keyfileContents_ne_nil (rid : List Nat) (blob : List Char) :
    keyfileContents rid blob ≠ [] := by
  simp [keyfileContents, borgKeySig]

theorem importPlain_keyfile (rid : List Nat) (blob : List Char) :
    importPlain rid (some (keyfileContents rid blob)) = .ok (keyfileContents rid blob) := by
  have h1 := firstLineOf_keyfile rid blob
  have h2 := restAfterFirstLine_keyfile rid blob
  have hpre : borgKeySig.isPrefixOf (firstLineOf (keyfileContents rid blob)) = true := by
    rw [h1]
    exact List.isPrefixOf_iff_prefix.mpr (List.prefix_append _ _)
  have hdrop : (firstLineOf (keyfileContents rid blob)).drop 9 = binToHex rid := by
    rw [h1, show (9 : Nat) = borgKeySig.length from rfl, List.drop_left]
  simp [importPlain, keyfileContents_ne_nil, hpre, hdrop, h2]

theorem sha256_length (msg : List Nat) : (sha256 msg).length = 32 := by
  simp [sha256, wordBytes]

theorem ksBlocks_length (b : Nat) (k : List Nat) :
    ∀ c, (ksBlocks b k c).length = 32 * b := by
  induction b with
  | zero => intro c; rfl
  | succ n ih =>
    intro c
    simp [ksBlocks, sha256_length, ih]
    ring

theorem keystream_length (k : List Nat) (n : Nat) : (keystream k n).length = n := by
  have h1 : (ksBlocks ((n + 31) / 32) k 0).length = 32 * ((n + 31) / 32) :=
    ksBlocks_length _ k 0
  have h2 : n ≤ 32 * ((n + 31) / 32) := by omega
  simp [keystream, List.length_take, h1]
  omega

theorem zipXor_cancel (a b : List Nat) (h : b.length = a.length) :
    zipXor (zipXor a b) b = a := by
  induction a generalizing b with
  | nil => cases b <;> rfl
  | cons x rest ih =>
    cases b with
    | nil => simp at h
    | cons y ys =>
      have hlen : ys.length = rest.length := by simpa using h
      show ((x ^^^ y) ^^^ y) :: zipXor (zipXor rest ys) ys = x :: rest
      rw [Nat.xor_cancel_right, ih ys hlen]

theorem zipXor_length (a b : List Nat) : (zipXor a b).length = min a.length b.length := by
  simp [zipXor]

theorem decodeEnv_encodeEnv (km : KeyMaterial) (pass : String) (salt : List Nat) :
    decodeEnv (encodeEnv km pass salt) pass = some km := by
  have hks : (keystream (kdf pass salt) km.key.length).length = km.key.length :=
    keystream_length _ _
  have hct : (zipXor km.key (keystream (kdf pass salt) km.key.length)).length =
      km.key.length := by
    rw [zipXor_length, hks, Nat.min_self]
  have hlen : (zipXor km.key (keystream (kdf pass salt) km.key.length) ++
      sha256 (kdf pass salt ++ km.key)).length - 32 =
      (zipXor km.key (keystream (kdf pass salt) km.key.length)).length := by
    rw [List.length_append, sha256_length]
    omega
  show decodeEnv ⟨km.algorithm, salt,
    zipXor km.key (keystream (kdf pass salt) km.key.length) ++
      sha256 (kdf pass salt ++ km.key)⟩ pass = some km
  simp only [decodeEnv, hlen]
  rw [List.take_left, List.drop_left, hct]
  rw [zipXor_cancel _ _ hks, if_pos rfl]

/-- Once aborted, the importer stays aborted on any further input. -/
theorem paperRun_aborted (target : List Char) (b : Nat) :
    ∀ rest : List String, paperRun target ⟨.aborted, b⟩ rest = ⟨.aborted, b⟩ := by
  intro rest
  induction rest with
  | nil => rfl
  | cons l ls ih => simpa [paperRun, paperStep] using ih

/-- C1: for the 21-byte key payload `abcdefghijklmnopqrstu` and repository id
`e294423506da4e1ea76e8dcdf1a3919624ae3ae496fddf905610c351d3f09239`, paper
export emits exactly the literal text of the spec and of
`test_key_export_paperkey`: the banner, the signature line, the `id:` line
with line count 2, repository-id prefix groups `e29442 3506da 4e1ea7`,
overall checksum `25f62a 5a3d41`, header checksum `02`, and the two data
lines with checksums `6d` and `88`. -/
theorem c1_paper_export_literal :
    exportPaperkey payload21 testRepoIdHex =
      "To restore key use borg key import --paper /path/to/repo\n\nBORG PAPER KEY v1\nid: 2 / e29442 3506da 4e1ea7 / 25f62a 5a3d41 - 02\n 1: 616263 646566 676869 6a6b6c 6d6e6f 707172 - 6d\n 2: 737475 - 88\n" := by
  decide

/-- C2 counterexample: the claim's uniform rule fails on the `id:` header
line.  The header of the spec's literal example carries checksum `02`, but
the first byte of the SHA-256 of the two-byte big-endian index 0 followed by
the fifteen raw bytes the header encodes (repository-id prefix plus overall
checksum) is `4e`, not `02`.  Moreover the claimed consequence fails for data
lines in general: the three-byte content `0x000142` has equal truncated
digests at indices 1 and 2, so that line content, printed for index 1, is
accepted unchanged at index 2. -/
theorem c2_counterexample_header_not_index0 :
    unhex (testRepoIdHex.take 18 ++ (sha256Trunc 12 payload21).data) = some testHeaderRawBytes ∧
    sha256Trunc 2 (0 :: 0 :: testHeaderRawBytes) = "4e" ∧
    headerLine 2 (testRepoIdHex.take 18) (sha256Trunc 12 payload21) =
      "id: 2 / e29442 3506da 4e1ea7 / 25f62a 5a3d41 - 02".data ∧
    sha256Trunc 2 (0 :: 0 :: testHeaderRawBytes) ≠ "02" ∧
    lineChecksum 1 [0, 1, 66] = lineChecksum 2 [0, 1, 66] ∧
    parseDataLine 2 (printedData 1 [0, 1, 66]) = some [0, 1, 66] := by
  refine ⟨by decide, by decide, by decide, by decide, by decide, by decide⟩

/-- C2 (amended): for every numbered data line, the line checksum equals the
first byte (two hex characters) of the SHA-256 of the 2-byte big-endian line
index concatenated with the raw bytes the line encodes: a printed data line
is accepted at its own index, and is rejected at any other index whenever
the truncated digests at the two indices differ — as they do for both data
lines of the spec's example (checksums `6d` and `88`).  The `id:` header
line's checksum is instead the first byte of the SHA-256 of the ASCII text
of its own content (`02` for the example), not an index-0 instance of the
data-line rule. -/
theorem c2_amended_line_checksums (i j : Nat) (chunk : List Nat)
    (h256 : ∀ b ∈ chunk, b < 256) :
    (parseDataLine i (printedData i chunk) = some chunk) ∧
    (lineChecksum i chunk ≠ lineChecksum j chunk →
      parseDataLine j (printedData i chunk) = none) ∧
    lineChecksum 1 (payload21.take 18) = "6d" ∧
    lineChecksum 2 (payload21.drop 18) = "88" ∧
    sha256Trunc 2 (asciiBytes (headerText 2 (testRepoIdHex.take 18) (sha256Trunc 12 payload21))) =
      "02" ∧
    parseDataLine 2 (printedData 1 (payload21.take 18)) = none ∧
    parseDataLine 1 (printedData 2 (payload21.drop 18)) = none := by
  refine ⟨?_, ?_, by decide, by decide, by decide, by decide, by decide⟩
  · rw [parseDataLine_printedData i i chunk h256, if_pos rfl]
  · intro hne
    rw [parseDataLine_printedData i j chunk h256,
      if_neg fun hd => hne (String.ext hd).symm]

/-- Witness for C2 (amended) at the concrete 21-byte test payload. -/
theorem c2_amended_witness :
    parseDataLine 1 (printedData 1 payload21) = some payload21 :=
  (c2_amended_line_checksums 1 1 payload21 (by decide)).1

/-- C5: when the final data line passes its line checksum but the recomputed
overall checksum of all accepted data bytes disagrees with the one embedded
in the `id:` header, the importer returns to `AwaitLine(1)` with the
accepted header retained (the header line is not re-entered) and the data
bytes dropped (all data lines are re-entered). -/
theorem c5_overall_mismatch_restarts_data (target : List Char) (hdr : PaperHeader)
    (acc bytes : List Nat) (line : String) (b : Nat)
    (hp : parseDataLine hdr.nlines line.data = some bytes)
    (hm : (sha256Trunc 12 (acc ++ bytes)).data ≠ hdr.overall) :
    paperStep target ⟨.awaitLine hdr.nlines hdr acc, b⟩ line = ⟨.awaitLine 1 hdr [], 0⟩ := by
  have hnb : stripSpaces line.data ≠ [] := by
    intro h
    simp [parseDataLine, h, splitOnChar] at hp
  simp [paperStep, hnb, hp, finishLines, hm]

/-- Witness for C5 at the source test's collision line `00a1 - 88`, whose
line checksum is valid at index 2 while the overall checksum mismatches. -/
theorem c5_witness :
    paperStep (testRepoIdHex.take 18)
      ⟨.awaitLine testHeader.nlines testHeader (payload21.take 18), 0⟩ "00a1 - 88" =
      ⟨.awaitLine 1 testHeader [], 0⟩ :=
  c5_overall_mismatch_restarts_data (testRepoIdHex.take 18) testHeader (payload21.take 18)
    [0, 161] "00a1 - 88" 0 (by decide) (by decide)

/-- C6: a first blank submission in `AwaitLine(i)` re-prompts the same line
without any confirmation; the second consecutive blank moves to the abort
confirmation; answering `y` there terminates the import in the `Aborted`
state for good, with no key material yielded; and any other answer resumes
`AwaitLine(i)` at the same line index. -/
theorem c6_blank_abort_protocol (target : List Char) (i : Nat) (hdr : PaperHeader)
    (acc : List Nat) :
    (∀ line : String, stripSpaces line.data = [] →
      paperStep target ⟨.awaitLine i hdr acc, 0⟩ line = ⟨.awaitLine i hdr acc, 1⟩) ∧
    (∀ line : String, stripSpaces line.data = [] →
      paperStep target ⟨.awaitLine i hdr acc, 1⟩ line =
        ⟨.confirmAbort (.awaitLine i hdr acc), 0⟩) ∧
    (∀ rest : List String,
      paperRun target ⟨.confirmAbort (.awaitLine i hdr acc), 0⟩ ("y" :: rest) =
        ⟨.aborted, 0⟩ ∧
      paperResult (paperRun target ⟨.confirmAbort (.awaitLine i hdr acc), 0⟩ ("y" :: rest)) =
        none) ∧
    (∀ (ans : String) (b : Nat), stripSpaces ans.data ≠ ['y'] →
      paperStep target ⟨.confirmAbort (.awaitLine i hdr acc), b⟩ ans =
        ⟨.awaitLine i hdr acc, 0⟩) := by
  refine ⟨?_, ?_, ?_, ?_⟩
  · intro line h
    simp [paperStep, h]
  · intro line h
    simp [paperStep, h]
  · intro rest
    have hstep : paperStep target ⟨.confirmAbort (.awaitLine i hdr acc), 0⟩ "y" =
        ⟨.aborted, 0⟩ := by
      have hy : stripSpaces "y".data = ['y'] := by decide
      simp [paperStep, hy]
    constructor
    · show paperRun target (paperStep target ⟨.confirmAbort (.awaitLine i hdr acc), 0⟩ "y")
        rest = ⟨.aborted, 0⟩
      rw [hstep]
      exact paperRun_aborted target 0 rest
    · show paperResult (paperRun target
        (paperStep target ⟨.confirmAbort (.awaitLine i hdr acc), 0⟩ "y") rest) = none
      rw [hstep, paperRun_aborted target 0 rest]
      rfl
  · intro ans b h
    simp [paperStep, h]

/-- Witness for C6: a second consecutive blank at line 2 of the test header
triggers the abort confirmation. -/
theorem c6_witness :
    paperStep (testRepoIdHex.take 18) ⟨.awaitLine 2 testHeader (payload21.take 18), 1⟩ "" =
      ⟨.confirmAbort (.awaitLine 2 testHeader (payload21.take 18)), 0⟩ :=
  (c6_blank_abort_protocol (testRepoIdHex.take 18) 2 testHeader (payload21.take 18)).2.1 ""
    (by decide)

/-- C7: a non-blank submission in `AwaitLine(i)` that fails structural
parsing or whose line checksum mismatches re-prompts the same index `i`,
keeping the header and all previously accepted data bytes unchanged. -/
theorem c7_line_failure_reprompts_same_index (target : List Char) (i : Nat)
    (hdr : PaperHeader) (acc : List Nat) (line : String) (b : Nat)
    (hnb : stripSpaces line.data ≠ [])
    (hf : parseDataLine i line.data = none) :
    paperStep target ⟨.awaitLine i hdr acc, b⟩ line = ⟨.awaitLine i hdr acc, 0⟩ := by
  simp [paperStep, hnb, hf]

/-- Witness for C7 at the source test's typo line `73747i - 88` submitted at
index 2. -/
theorem c7_witness :
    paperStep (testRepoIdHex.take 18) ⟨.awaitLine 2 testHeader (payload21.take 18), 0⟩
      "73747i - 88" = ⟨.awaitLine 2 testHeader (payload21.take 18), 0⟩ :=
  c7_line_failure_reprompts_same_index (testRepoIdHex.take 18) 2 testHeader
    (payload21.take 18) "73747i - 88" 0 (by decide) (by decide)

/-- C3: for every key-file repository, plain export produces text whose
first line is exactly `BORG_KEY ` plus the hex repository id plus a newline,
byte-identical to the stored key file; and importing that exported text for
the same repository restores a stored key file byte-identical to the
original. -/
theorem c3_plain_export_import_roundtrip (rid : List Nat) (blob : List Char) :
    (borgKeySig ++ binToHex rid ++ ['\n']) <+: exportPlain rid (keyfileContents rid blob) ∧
    exportPlain rid (keyfileContents rid blob) = keyfileContents rid blob ∧
    importPlain rid (some (exportPlain rid (keyfileContents rid blob))) =
      .ok (keyfileContents rid blob) := by
  have e := exportPlain_keyfile rid blob
  refine ⟨?_, e, ?_⟩
  · rw [e, keyfileContents_assoc]
    exact ⟨blob, by simp⟩
  · rw [e]
    exact importPlain_keyfile rid blob

/-- C4: the envelope's `algorithm` field is fixed at key-creation time and
survives both operations: change-passphrase decodes and re-encodes under the
new passphrase with the same algorithm identifier, and change-location moves
the envelope blob unchanged, so the blob at the new location still carries
the creation-time algorithm identifier. -/
theorem c4_changes_preserve_algorithm (km : KeyMaterial) (p p2 : String)
    (s s2 : List Nat) (stores : KeyStores) (src dst : KeyLocation) (env : Envelope) :
    (encodeEnv km p s).algorithm = km.algorithm ∧
    (changePassphrase (encodeEnv km p s) p p2 s2).map Envelope.algorithm =
      some (encodeEnv km p s).algorithm ∧
    (src ≠ dst → loadFrom stores src = some env →
      ∃ s1, changeLocation stores src dst = some s1 ∧
        loadFrom s1 dst = some env ∧
        (loadFrom s1 dst).map Envelope.algorithm = some env.algorithm) := by
  refine ⟨rfl, ?_, ?_⟩
  · show ((decodeEnv (encodeEnv km p s) p).map fun km2 => encodeEnv km2 p2 s2).map
      Envelope.algorithm = some (encodeEnv km p s).algorithm
    rw [decodeEnv_encodeEnv]
    rfl
  · intro hne hload
    cases src <;> cases dst
    · exact absurd rfl hne
    · simp only [loadFrom] at hload
      refine ⟨⟨none, some env⟩, ?_, rfl, rfl⟩
      simp [changeLocation, loadFrom, hload, saveTo, removeFrom]
    · simp only [loadFrom] at hload
      refine ⟨⟨some env, none⟩, ?_, rfl, rfl⟩
      simp [changeLocation, loadFrom, hload, saveTo, removeFrom]
    · exact absurd rfl hne

/-- Witness for C4 at a concrete `argon2 chacha20-poly1305` envelope moved
from the external key file into the repository. -/
theorem c4_witness :
    ∃ s1,
      changeLocation
        ⟨some (encodeEnv ⟨"argon2 chacha20-poly1305", [1, 2, 3]⟩ "passphrase" [7, 7]), none⟩
        .external .embedded = some s1 ∧
      loadFrom s1 .embedded =
        some (encodeEnv ⟨"argon2 chacha20-poly1305", [1, 2, 3]⟩ "passphrase" [7, 7]) ∧
      (loadFrom s1 .embedded).map Envelope.algorithm =
        some (encodeEnv ⟨"argon2 chacha20-poly1305", [1, 2, 3]⟩ "passphrase" [7, 7]).algorithm :=
  (c4_changes_preserve_algorithm ⟨"argon2 chacha20-poly1305", [1, 2, 3]⟩ "passphrase" "new"
    [7, 7] [8, 8]
    ⟨some (encodeEnv ⟨"argon2 chacha20-poly1305", [1, 2, 3]⟩ "passphrase" [7, 7]), none⟩
    .external .embedded
    (encodeEnv ⟨"argon2 chacha20-poly1305", [1, 2, 3]⟩ "passphrase" [7, 7])).2.2
    (by decide) rfl

/-- C8: plain key import distinguishes error kinds by cause — a missing or
empty source file fails with the file-not-found error; a file whose first
line does not carry the key-file signature fails with `NotABorgKeyFile`; a
recognized envelope whose embedded repository id differs from the target's
fails with `RepoIdMismatch`. -/
theorem c8_plain_import_error_taxonomy (rid : List Nat) (s : List Char) :
    importPlain rid none = .fileNotFound ∧
    importPlain rid (some []) = .fileNotFound ∧
    (s ≠ [] → borgKeySig.isPrefixOf (firstLineOf s) = false →
      importPlain rid (some s) = .notABorgKeyFile) ∧
    (s ≠ [] → borgKeySig.isPrefixOf (firstLineOf s) = true →
      (firstLineOf s).drop 9 ≠ binToHex rid →
      importPlain rid (some s) = .repoIdMismatch) := by
  refine ⟨rfl, by simp [importPlain], ?_, ?_⟩
  · intro h1 h2
    simp [importPlain, h1, h2]
  · intro h1 h2 h3
    simp [importPlain, h1, h2, h3]

/-- Witness for C8 at the source test's inputs `something not a key` and
`BORG_KEY a0a0a0`. -/
theorem c8_witness :
    importPlain testRepoIdBytes (some "something not a key\n".data) = .notABorgKeyFile ∧
    importPlain testRepoIdBytes (some "BORG_KEY a0a0a0\n".data) = .repoIdMismatch :=
  ⟨(c8_plain_import_error_taxonomy testRepoIdBytes "something not a key\n".data).2.2.1
      (by decide) (by decide),
   (c8_plain_import_error_taxonomy testRepoIdBytes "BORG_KEY a0a0a0\n".data).2.2.2
      (by decide) (by decide) (by decide)⟩

/-- C9: the key-file lookup enumerates the key directory's files and
matches each file's embedded repository id (the text after the header
signature on its first line) against the target id; when no enumerated file
matches it raises `KeyfileNotFoundError`, and a file whose embedded id
matches is found. -/
theorem c9_find_key_file_not_found (id : List Char) (files : List (String × List Char))
    (name : String) (content : List Char) :
    ((∀ f ∈ files, keyfileMatches id f.2 = false) → findKeyFile id files = .keyfileNotFound) ∧
    (keyfileMatches id content = true →
      findKeyFile id ((name, content) :: files) = .found name) := by
  constructor
  · intro h
    induction files with
    | nil => rfl
    | cons f rest ih =>
      obtain ⟨n, c⟩ := f
      have h1 : keyfileMatches id c = false := h (n, c) (by simp)
      have h2 : ∀ g ∈ rest, keyfileMatches id g.2 = false := fun g hg => h g (by simp [hg])
      simp [findKeyFile, h1, ih h2]
  · intro h
    simp [findKeyFile, h]

/-- Witness for C9: a directory holding only non-matching key files yields
`KeyfileNotFoundError`. -/
theorem c9_witness :
    findKeyFile testRepoIdHex
      [("repo1.key", "BORG_KEY 0000\nsomething".data),
       ("repo2.key", "ATTIC KEY 1111\nsomething".data)] = .keyfileNotFound :=
  (c9_find_key_file_not_found testRepoIdHex
    [("repo1.key", "BORG_KEY 0000\nsomething".data),
     ("repo2.key", "ATTIC KEY 1111\nsomething".data)] "x" []).1 (by decide)

/-- Replacing the first occurrence of a pattern in a string that starts
with that pattern rewrites exactly the leading occurrence. -/
theorem replaceFirst_of_prefix (pat rep rest : List Char) (hne : pat ≠ []) :
    replaceFirst pat rep (pat ++ rest) = rep ++ rest := by
  cases pat with
  | nil => exact absurd rfl hne
  | cons p ps =>
    have hpre : (p :: ps).isPrefixOf (p :: (ps ++ rest)) = true :=
      List.isPrefixOf_iff_prefix.mpr (List.prefix_append _ _)
    show (if (p :: ps).isPrefixOf (p :: (ps ++ rest)) then
        rep ++ (p :: (ps ++ rest)).drop (p :: ps).length
      else p :: replaceFirst (p :: ps) rep (ps ++ rest)) = rep ++ rest
    rw [if_pos hpre, show p :: (ps ++ rest) = (p :: ps) ++ rest from rfl, List.drop_left]

/-- C10: converting a legacy key file whose data starts with the `ATTIC
KEY` signature replaces only that first occurrence with `BORG_KEY` and
leaves every other byte unchanged — any later occurrence of the legacy
signature inside `rest`, and in particular the encrypted key material, is
untouched — and the written result starts with the current `BORG_KEY`
signature. -/
theorem c10_convert_keyfile_first_occurrence (rest : List Char) :
    convertKeyfileData (atticFileId ++ rest) = borgFileId ++ rest ∧
    borgFileId <+: convertKeyfileData (atticFileId ++ rest) := by
  have e : convertKeyfileData (atticFileId ++ rest) = borgFileId ++ rest :=
    replaceFirst_of_prefix atticFileId borgFileId rest (by decide)
  exact ⟨e, e ▸ List.prefix_append _ _⟩

/-- Model validation: running the importer on the exact scripted input of
`test_key_import_paperkey` reconstructs the original 21 payload bytes. -/
theorem paperRun_testTypedInput :
    paperRun (testRepoIdHex.take 18) ⟨.awaitHeader, 0⟩ testTypedInput =
      ⟨.done payload21, 0⟩ := by
  decide

/-- Model validation: the hex rendering of the test repository id bytes is
the test's hex id text. -/
theorem binToHex_testRepoIdBytes : binToHex testRepoIdBytes = testRepoIdHex := by
  decide

/-- Model validation: after an accepted header, two blank submissions and a
`y` answer terminate the import with no key material. -/
theorem paperRun_abortPath :
    paperResult (paperRun (testRepoIdHex.take 18) ⟨.awaitHeader, 0⟩
      ["2 / e29442 3506da 4e1ea7 / 25f62a 5a3d41 - 02", "", "", "y"]) = none := by
  decide
